import Mathlib

/-!
# The user-file server of `way11229/fast_api`

A shallow embedding of `services/services.go`: the three gin handlers
`addUserFile`, `listUsers` and `checkUserFile` of `UserFileServer`.

The handlers are translated line by line.  Everything they call outside the
repository (gin's request accessors, `filepath.Join`, `filepath.Ext`,
`os.Stat`, `os.ReadDir`, `os.IsNotExist`, gin's `SaveUploadedFile`) is
modelled from the documented behaviour of the Go standard library and of gin:

* the pure helpers (`Join`, `Ext`, `IsNotExist`) are Lean functions;
* the operating system is a parameter `Sys σ` of the handlers, so that a
  statement quantified over every `Sys` holds for every outcome the system
  calls can have;
* `refSys` is a reference file system (a directory tree without symbolic
  links, with the limits of Go and Linux on paths and names), used for the
  statements that relate an upload to a later read, stat or listing.
-/

set_option autoImplicit false

namespace UserFiles

/-! ## Go values seen by the handlers -/

deriving instance DecidableEq for Except

/-- Content of a file: a sequence of bytes. -/
abbrev Bytes := List UInt8

/-- A Go `error` value, as far as the handlers can observe it: its text and
whether `os.IsNotExist` holds of it. -/
structure GoError where
  msg : String
  notExist : Bool
  deriving DecidableEq, Repr

/-- The function `os.IsNotExist`: false on `nil`, otherwise the error's own
classification. -/
def IsNotExist : Option GoError → Bool
  | none => false
  | some e => e.notExist

/-- The error `http.ErrMissingFile`, returned by `FormFile` when the part is absent. -/
def ErrMissingFile : GoError := ⟨"http: no such file", false⟩

/-- The errno `ENOENT`; the only errno for which `os.IsNotExist` holds. -/
def ENOENT : GoError := ⟨"no such file or directory", true⟩

/-- The errno `ENOTDIR`. -/
def ENOTDIR : GoError := ⟨"not a directory", false⟩

/-- The errno `EISDIR`. -/
def EISDIR : GoError := ⟨"is a directory", false⟩

/-- The errno `EACCES`. -/
def EACCES : GoError := ⟨"permission denied", false⟩

/-- The errno `EINVAL`. -/
def EINVAL : GoError := ⟨"invalid argument", false⟩

/-- The errno `ENAMETOOLONG`. -/
def ENAMETOOLONG : GoError := ⟨"file name too long", false⟩

/-- A `multipart.FileHeader` together with the bytes of the part. -/
structure FileHeader where
  Filename : String
  content : Bytes
  deriving DecidableEq

/-- The part of a `gin.Context` the handlers read: the path parameters, the
values of the posted form and its file parts, each in request order. -/
structure Context where
  params : List (String × String)
  postForm : List (String × String)
  formFiles : List (String × FileHeader)

/-- The accessor `c.Param(key)`: the first parameter of that name, else `""`. -/
def Context.Param (c : Context) (key : String) : String :=
  (c.params.lookup key).getD ""

/-- The accessor `c.PostForm(key)`: the first form value of that name, else `""`. -/
def Context.PostForm (c : Context) (key : String) : String :=
  (c.postForm.lookup key).getD ""

/-- The accessor `c.FormFile(name)`: the first file part of that name, else an error. -/
def Context.FormFile (c : Context) (name : String) : Except GoError FileHeader :=
  match c.formFiles.lookup name with
  | some f => .ok f
  | none => .error ErrMissingFile

/-- The values the handlers put in a `gin.H`. A Go `[]string` (nil or not) is
the list of its elements. -/
inductive JSONValue where
  | str (s : String)
  | bool (b : Bool)
  | strings (l : List String)
  deriving DecidableEq, Repr

/-- What `c.JSON(status, gin.H{...})` sends: the status code and the fields. -/
structure Response where
  status : Nat
  body : List (String × JSONValue)
  deriving DecidableEq, Repr

def StatusOK : Nat := 200
def StatusBadRequest : Nat := 400
def StatusInternalServerError : Nat := 500

/-! ## `path/filepath` -/

/-- A path as `filepath.Clean` leaves it, held as its elements: `rooted` says
whether it starts at `/`; `elems` has no empty element and no `.`, and `..`
only at the front of an unrooted path. -/
structure CleanPath where
  rooted : Bool
  elems : List String
  deriving DecidableEq, Repr

/-- The pieces of a path between its separators `/`. -/
def splitSep : List Char → List (List Char)
  | [] => [[]]
  | c :: cs =>
    if c = '/' then [] :: splitSep cs
    else
      match splitSep cs with
      | [] => [[c]]
      | x :: xs => (c :: x) :: xs

/-- One element of the path processed by `filepath.Clean`: empty elements and
`.` are dropped; `..` removes the element before it, is dropped at the root,
and is kept at the front of an unrooted path. -/
def cleanStep (rooted : Bool) (out : List String) (e : String) : List String :=
  if e = "" ∨ e = "." then out
  else if e = ".." then
    match out.getLast? with
    | some top => if top = ".." then out ++ [e] else out.dropLast
    | none => if rooted then out else out ++ [e]
  else out ++ [e]

/-- The function `filepath.Clean` (Unix). -/
def Clean (path : String) : CleanPath :=
  let rooted := path.data.head? == some '/'
  ⟨rooted, ((splitSep path.data).map String.mk).foldl (cleanStep rooted) []⟩

/-- The string a cleaned path stands for. -/
def CleanPath.render (p : CleanPath) : String :=
  if p.rooted then "/" ++ "/".intercalate p.elems
  else if p.elems = [] then "." else "/".intercalate p.elems

/-- The function `filepath.Join` on two elements: empty elements are ignored
and the result is cleaned. (For two empty elements Go returns `""`; the
handlers never join an empty file name.) -/
def Join (a b : String) : CleanPath :=
  if a ≠ "" then Clean (a ++ "/" ++ b) else Clean b

/-- The function `filepath.Dir` on a cleaned path: all but the last element. -/
def CleanPath.Dir (p : CleanPath) : CleanPath :=
  ⟨p.rooted, p.elems.dropLast⟩

/-- The loop of `filepath.Ext`, scanning the path from its last byte: `rev` is
what is left to scan (reversed) and `acc` what was scanned. It stops with
nothing at a separator and with the suffix at the first dot. -/
def extScan : List Char → List Char → List Char
  | [], _ => []
  | c :: rev, acc =>
    if c = '/' then []
    else if c = '.' then c :: acc
    else extScan rev (c :: acc)

/-- The function `filepath.Ext`: the suffix from the last dot of the last
element, or `""` without one. -/
def Ext (path : String) : String :=
  ⟨extScan path.data.reverse []⟩

/-! ## The operating system, as the handlers use it -/

/-- One `os.DirEntry`. -/
structure DirEntry where
  Name : String
  IsDir : Bool
  deriving DecidableEq, Repr

/-- The `os.FileInfo` of a successful `os.Stat`. -/
structure FileInfo where
  Name : String
  IsDir : Bool
  deriving DecidableEq, Repr

/-- The calls the handlers make into gin and `os`, over a state `σ` of the
storage. `SaveUploadedFile` returns its `error` (or `nil`) and the state it
leaves behind; `ReadDir` and `Stat` only read. -/
structure Sys (σ : Type) where
  SaveUploadedFile : σ → FileHeader → CleanPath → Option GoError × σ
  ReadDir : σ → String → Except GoError (List DirEntry)
  Stat : σ → CleanPath → Except GoError FileInfo

/-! ## `services.go` -/

/-- The fields of `UserFileServer` the handlers read. -/
structure UserFileServer where
  serverPort : String
  userFilesPath : String

/-- The handler `addUserFile` (POST `/user/add`). -/
def addUserFile {σ : Type} (sys : Sys σ) (s : UserFileServer) (c : Context) (w : σ) :
    Response × σ :=
  let userID := c.PostForm "id"
  if userID = "" then
    (⟨StatusBadRequest, [("error", .str "User ID is required")]⟩, w)
  else
    match c.FormFile "file" with
    | .error _ =>
      (⟨StatusBadRequest, [("error", .str "File is required")]⟩, w)
    | .ok file =>
      let filename := userID ++ ".json"
      let filepath := Join s.userFilesPath filename
      match sys.SaveUploadedFile w file filepath with
      | (some _, w') =>
        (⟨StatusInternalServerError, [("error", .str "Failed to save file")]⟩, w')
      | (none, w') =>
        (⟨StatusOK, [("message", .str "File uploaded successfully")]⟩, w')

/-- The loop of `listUsers` over the directory entries. -/
def userFilesOf : List DirEntry → List String
  | [] => []
  | file :: files =>
    if !file.IsDir && Ext file.Name == ".json" then file.Name :: userFilesOf files
    else userFilesOf files

/-- The handler `listUsers` (GET `/users`). -/
def listUsers {σ : Type} (sys : Sys σ) (s : UserFileServer) (_c : Context) (w : σ) :
    Response × σ :=
  match sys.ReadDir w s.userFilesPath with
  | .error _ =>
    (⟨StatusInternalServerError, [("error", .str "Failed to read user files")]⟩, w)
  | .ok files =>
    (⟨StatusOK, [("users", .strings (userFilesOf files))]⟩, w)

/-- The handler `checkUserFile` (GET `/user/:user_id`). -/
def checkUserFile {σ : Type} (sys : Sys σ) (s : UserFileServer) (c : Context) (w : σ) :
    Response × σ :=
  let userID := c.Param "user_id"
  let filename := userID ++ ".json"
  let filepath := Join s.userFilesPath filename
  let err : Option GoError :=
    match sys.Stat w filepath with
    | .ok _ => none
    | .error e => some e
  let exists' := !IsNotExist err
  (⟨StatusOK, [("user_id", .str userID), ("exists", .bool exists')]⟩, w)

/-- The requests of a sequence of uploads served one after the other: the
responses in order, and the storage left by the last. -/
def serveUploads {σ : Type} (sys : Sys σ) (s : UserFileServer) :
    List Context → σ → List Response × σ
  | [], w => ([], w)
  | c :: cs, w =>
    let r := addUserFile sys s c w
    let rs := serveUploads sys s cs r.2
    (r.1 :: rs.1, rs.2)

/-! ## A reference file system

A tree of directories and files under `/`, without symbolic links, hard
links or permissions, with the limits Go and Linux put on paths: no NUL byte,
fewer than `PATH_MAX` bytes, and no name of more than `NAME_MAX` bytes. -/

/-- The most bytes a file name can have. -/
def NAME_MAX : Nat := 255

/-- The bound on the bytes of a path given to a system call (its terminating
NUL counted). -/
def PATH_MAX : Nat := 4096

/-- Whether a name has more bytes than a directory can hold. -/
def tooLong (name : String) : Bool := decide (NAME_MAX < name.utf8ByteSize)

/-- The error every call on a path string starts with, if any: Go refuses a
path holding a NUL byte with `EINVAL`, Linux one of `PATH_MAX` bytes or more
with `ENAMETOOLONG`. -/
def pathErrno (path : String) : Option GoError :=
  if Char.ofNat 0 ∈ path.data then some EINVAL
  else if PATH_MAX ≤ path.utf8ByteSize then some ENAMETOOLONG
  else none

/-- A node of the tree: a file with its content or a directory with its
entries (the first entry of a name is the one in force). -/
inductive Node where
  | file (content : Bytes)
  | dir (entries : List (String × Node))

/-- Whether the node is a directory. -/
def Node.IsDir : Node → Bool
  | .file _ => false
  | .dir _ => true

/-- Sets the entry `name` of a directory to `v`: in place when the name is
there, at the end otherwise. -/
def upsert {β : Type} : List (String × β) → String → β → List (String × β)
  | [], name, v => [(name, v)]
  | (k, x) :: rest, name, v =>
    if k = name then (name, v) :: rest else (k, x) :: upsert rest name v

/-- Path resolution from a node down the elements of a path: `ENOTDIR` when
an element is looked up in a file, `ENAMETOOLONG` when a directory is asked
for a name too long for it, `ENOENT` at a missing entry. -/
def Node.walk : Node → List String → Except GoError Node
  | t, [] => .ok t
  | .file _, _ :: _ => .error ENOTDIR
  | .dir ch, e :: rest =>
    if tooLong e then .error ENAMETOOLONG
    else
      match ch.lookup e with
      | some t => t.walk rest
      | none => .error ENOENT

/-- The function `os.MkdirAll` below a node: missing directories along the
path are created; a file on the way is `ENOTDIR`, a name too long for a
directory `ENAMETOOLONG`. -/
def Node.mkdirAll : Node → List String → Except GoError Node
  | .file _, _ => .error ENOTDIR
  | .dir ch, [] => .ok (.dir ch)
  | .dir ch, e :: rest =>
    if tooLong e then .error ENAMETOOLONG
    else
      match (match ch.lookup e with
        | some t => t
        | none => Node.dir []).mkdirAll rest with
      | .ok t' => .ok (.dir (upsert ch e t'))
      | .error err => .error err

/-- The function `os.Create` followed by writing `content`: an existing file
is truncated and rewritten, a missing one is created in its (existing) parent
directory; a directory at the path is `EISDIR`, a name too long for a
directory `ENAMETOOLONG`. -/
def Node.create : Node → List String → Bytes → Except GoError Node
  | .file _, [], content => .ok (.file content)
  | .dir _, [], _ => .error EISDIR
  | .file _, _ :: _, _ => .error ENOTDIR
  | .dir ch, e :: rest, content =>
    if tooLong e then .error ENAMETOOLONG
    else
      match ch.lookup e with
      | some t =>
        match t.create rest content with
        | .ok t' => .ok (.dir (upsert ch e t'))
        | .error err => .error err
      | none =>
        if rest = [] then .ok (.dir (upsert ch e (.file content)))
        else .error ENOENT

/-- The state of the reference file system: the working directory of the
process (elements from `/`) and the tree at `/`. -/
structure FS where
  cwd : List String
  tree : Node

/-- One element of an already cleaned path followed from a directory. -/
def walkStep (out : List String) (e : String) : List String :=
  if e = ".." then out.dropLast else out ++ [e]

/-- The place a cleaned path names: its elements from `/`, an unrooted path
being followed from the working directory. -/
def FS.locate (fs : FS) (p : CleanPath) : List String :=
  if p.rooted then p.elems else p.elems.foldl walkStep fs.cwd

/-- Order of file names by their bytes, as `os.ReadDir` sorts its entries. -/
def nameLE : List Char → List Char → Bool
  | [], _ => true
  | _ :: _, [] => false
  | a :: as, b :: bs =>
    if a.toNat < b.toNat then true
    else if b.toNat < a.toNat then false
    else nameLE as bs

/-- The entries of a directory in the order `os.ReadDir` returns them. -/
def sortEntries (l : List DirEntry) : List DirEntry :=
  l.insertionSort (fun a b => nameLE a.Name.data b.Name.data = true)

/-- The entries of a directory node, unsorted. -/
def entriesOf (ch : List (String × Node)) : List DirEntry :=
  ch.map (fun kv => ⟨kv.1, kv.2.IsDir⟩)

/-- The function `os.ReadDir`. -/
def FS.ReadDir (fs : FS) (name : String) : Except GoError (List DirEntry) :=
  if name = "" then .error ENOENT
  else
    match pathErrno name with
    | some e => .error e
    | none =>
      match fs.tree.walk (fs.locate (Clean name)) with
      | .ok (.dir ch) => .ok (sortEntries (entriesOf ch))
      | .ok (.file _) => .error ENOTDIR
      | .error e => .error e

/-- The function `os.Stat`, on the string of a cleaned path. -/
def FS.Stat (fs : FS) (p : CleanPath) : Except GoError FileInfo :=
  match pathErrno p.render with
  | some e => .error e
  | none =>
    match fs.tree.walk (fs.locate p) with
    | .ok n => .ok ⟨(p.elems.getLast?).getD (if p.rooted then "/" else "."), n.IsDir⟩
    | .error e => .error e

/-- The function `os.ReadFile`, with which the tests read a stored file back. -/
def FS.ReadFile (fs : FS) (p : CleanPath) : Except GoError Bytes :=
  match pathErrno p.render with
  | some e => .error e
  | none =>
    match fs.tree.walk (fs.locate p) with
    | .ok (.file content) => .ok content
    | .ok (.dir _) => .error EISDIR
    | .error e => .error e

/-- The method `SaveUploadedFile` of gin: the directory of the destination is
created with `os.MkdirAll`, the destination with `os.Create`, and the content
of the part is copied into it. -/
def FS.SaveUploadedFile (fs : FS) (file : FileHeader) (dst : CleanPath) :
    Option GoError × FS :=
  match pathErrno dst.Dir.render with
  | some e => (some e, fs)
  | none =>
    match fs.tree.mkdirAll (fs.locate dst.Dir) with
    | .error e => (some e, fs)
    | .ok t1 =>
      match pathErrno dst.render with
      | some e => (some e, { fs with tree := t1 })
      | none =>
        match t1.create (fs.locate dst) file.content with
        | .error e => (some e, { fs with tree := t1 })
        | .ok t2 => (none, { fs with tree := t2 })

/-- The reference file system as a `Sys`. -/
def refSys : Sys FS where
  SaveUploadedFile := FS.SaveUploadedFile
  ReadDir := FS.ReadDir
  Stat := FS.Stat

/-- The entry of a cleaned directory path named `name`. -/
def CleanPath.child (p : CleanPath) (name : String) : CleanPath :=
  ⟨p.rooted, p.elems ++ [name]⟩

/-- A user ID without a path separator. -/
def sepFree (userID : String) : Prop := '/' ∉ userID.data

instance (userID : String) : Decidable (sepFree userID) := by
  unfold sepFree; infer_instance

/-- A system in which every call fails with `e` and leaves the storage alone. -/
def failing (e : GoError) : Sys Unit where
  SaveUploadedFile := fun w _ _ => (some e, w)
  ReadDir := fun _ _ => .error e
  Stat := fun _ _ => .error e

/-- Whether a file name ends in `.json`. -/
def endsInJson (name : String) : Prop := ".json".data <:+ name.data

instance (name : String) : Decidable (endsInJson name) := by
  unfold endsInJson; infer_instance

/-- The listing in the words of the specification: the names, in directory
order, of the entries that are not directories and whose name ends in `.json`. -/
def jsonFileNames (files : List DirEntry) : List String :=
  (files.filter (fun f => !f.IsDir && decide (endsInJson f.Name))).map (fun f => f.Name)

/-- The names of a directory after the entry `n` is set: unchanged when `n` is
there, with `n` at the end otherwise. -/
def addName (l : List String) (n : String) : List String :=
  if n ∈ l then l else l ++ [n]

/-- The root directory exists and holds exactly the regular files named `names`,
in that order. -/
def rootHolds (fs : FS) (root : String) (names : List String) : Prop :=
  ∃ ch, fs.tree.walk (fs.locate (Clean root)) = .ok (.dir ch) ∧
    entriesOf ch = names.map (fun n => ⟨n, false⟩)

/-! ## The setting of the tests -/

/-- The server of the tests: root `./user_files_test`. -/
def testServer : UserFileServer := ⟨":80", "./user_files_test"⟩

/-- A store as the tests set it up: working directory `/srv`, root directory
present and empty. -/
def testStore : FS := ⟨["srv"], .dir [("srv", .dir [("user_files_test", .dir [])])]⟩

/-- An upload request with the form field `id` and the file part `file`. -/
def uploadRequest (id : String) (content : Bytes) : Context :=
  ⟨[], [("id", id)], [("file", ⟨"test.json", content⟩)]⟩

/-- An existence request for the path parameter `user_id`. -/
def checkRequest (userID : String) : Context :=
  ⟨[("user_id", userID)], [], []⟩

/-! ## Facts about `filepath.Ext` and the listing loop -/

theorem extScan_suffix (rev acc : List Char) :
    extScan rev acc = [] ∨ extScan rev acc <:+ rev.reverse ++ acc := by
  induction rev generalizing acc with
  | nil => left; rfl
  | cons c rev ih =>
    unfold extScan
    by_cases h1 : c = '/'
    · left; simp [h1]
    · by_cases h2 : c = '.'
      · right
        simp only [h1, h2, if_false, if_true]
        exact ⟨rev.reverse, by simp⟩
      · simp only [h1, h2, if_false]
        rcases ih (c :: acc) with h | h
        · left; exact h
        · right; simpa using h

theorem Ext_eq_json_iff (name : String) : Ext name = ".json" ↔ endsInJson name := by
  unfold endsInJson
  constructor
  · intro h
    have hd : extScan name.data.reverse [] = ['.', 'j', 's', 'o', 'n'] := by
      have := congrArg String.data h
      simpa [Ext] using this
    rcases extScan_suffix name.data.reverse [] with h0 | hs
    · rw [h0] at hd; cases hd
    · rw [hd] at hs; simpa using hs
  · rintro ⟨pre, hpre⟩
    have : name.data.reverse = 'n' :: 'o' :: 's' :: 'j' :: '.' :: pre.reverse := by
      rw [← hpre]; simp
    unfold Ext
    rw [this]
    simp [extScan]

theorem userFilesOf_eq (files : List DirEntry) : userFilesOf files = jsonFileNames files := by
  induction files with
  | nil => rfl
  | cons f fs ih =>
    unfold userFilesOf jsonFileNames
    by_cases h : endsInJson f.Name
    · have h' : Ext f.Name = ".json" := (Ext_eq_json_iff _).2 h
      cases hd : f.IsDir <;> simp [h, h', hd, List.filter_cons] <;> simpa [jsonFileNames] using ih
    · have h' : Ext f.Name ≠ ".json" := fun e => h ((Ext_eq_json_iff _).1 e)
      cases hd : f.IsDir <;> simp [h, h', hd, List.filter_cons] <;> simpa [jsonFileNames] using ih

/-! ## Facts about `filepath.Join` -/

theorem splitSep_ne_nil (l : List Char) : splitSep l ≠ [] := by
  cases l with
  | nil => simp [splitSep]
  | cons c cs =>
    unfold splitSep
    by_cases h : c = '/'
    · simp [h]
    · simp only [h, if_false]
      cases splitSep cs <;> simp

theorem splitSep_append_sep (a b : List Char) :
    splitSep (a ++ '/' :: b) = splitSep a ++ splitSep b := by
  induction a with
  | nil => simp [splitSep]
  | cons c cs ih =>
    by_cases h : c = '/'
    · simp [splitSep, h, ih]
    · have hne := splitSep_ne_nil cs
      cases hcs : splitSep cs with
      | nil => exact absurd hcs hne
      | cons x xs => simp [splitSep, h, ih, hcs]

theorem splitSep_of_not_mem (l : List Char) (h : '/' ∉ l) : splitSep l = [l] := by
  induction l with
  | nil => rfl
  | cons c cs ih =>
    have hc : c ≠ '/' := fun e => h (by simp [e])
    have hcs : '/' ∉ cs := fun e => h (by simp [e])
    simp [splitSep, hc, ih hcs]

theorem cleanStep_plain (rooted : Bool) (out : List String) (e : String)
    (h1 : e ≠ "") (h2 : e ≠ ".") (h3 : e ≠ "..") : cleanStep rooted out e = out ++ [e] := by
  simp [cleanStep, h1, h2, h3]

theorem Clean_empty : Clean "" = ⟨false, []⟩ := by decide

theorem Join_child (root f : String) (hsep : '/' ∉ f.data)
    (h1 : f ≠ "") (h2 : f ≠ ".") (h3 : f ≠ "..") :
    Join root f = (Clean root).child f := by
  by_cases hr : root = ""
  · subst hr
    have hhead : (f.data.head? == some '/') = false := by
      cases hf : f.data with
      | nil => rfl
      | cons c cs =>
        have : c ≠ '/' := fun e => hsep (by simp [hf, e])
        simp [this]
    simp [Join, Clean_empty, CleanPath.child]
    simp [Clean, hhead, splitSep_of_not_mem _ hsep, cleanStep_plain _ _ _ h1 h2 h3]
  · have hdata : (root ++ "/" ++ f).data = root.data ++ '/' :: f.data := by
      simp [String.data_append]
    have hrd : root.data ≠ [] := fun e => hr (String.ext e)
    have hhead : (root.data ++ '/' :: f.data).head? = root.data.head? := by
      cases hrr : root.data with
      | nil => exact absurd hrr hrd
      | cons c cs => rfl
    simp [Join, hr, Clean, CleanPath.child, hdata, hhead, splitSep_append_sep,
      splitSep_of_not_mem _ hsep, List.foldl_append, cleanStep_plain _ _ _ h1 h2 h3]

theorem json_name_data (userID : String) :
    (userID ++ ".json").data = userID.data ++ ['.', 'j', 's', 'o', 'n'] := by
  simp [String.data_append]

theorem json_name_sepFree (userID : String) (h : sepFree userID) :
    '/' ∉ (userID ++ ".json").data := by
  rw [json_name_data]
  intro hm
  rcases List.mem_append.1 hm with hm | hm
  · exact h hm
  · revert hm; decide

theorem json_name_ne (userID : String) (e : String) (he : e.length < 5) :
    userID ++ ".json" ≠ e := by
  intro h
  have h5 : (userID ++ ".json").length = userID.length + 5 := by
    rw [String.length_append]; rfl
  rw [h] at h5
  omega

theorem json_name_injective : Function.Injective (fun userID : String => userID ++ ".json") := by
  intro a b h
  have h' := congrArg String.data h
  simp only [json_name_data] at h'
  exact String.ext (List.append_cancel_right h')

theorem Join_json (root userID : String) (h : sepFree userID) :
    Join root (userID ++ ".json") = (Clean root).child (userID ++ ".json") :=
  Join_child root _ (json_name_sepFree userID h)
    (json_name_ne userID "" (by decide)) (json_name_ne userID "." (by decide))
    (json_name_ne userID ".." (by decide))

theorem locate_child (fs : FS) (p : CleanPath) (name : String) (h : name ≠ "..") :
    fs.locate (p.child name) = fs.locate p ++ [name] := by
  unfold FS.locate CleanPath.child
  cases p.rooted <;> simp [List.foldl_append, walkStep, h]

theorem child_Dir (p : CleanPath) (name : String) : (p.child name).Dir = p := by
  simp [CleanPath.child, CleanPath.Dir]

/-! ## Facts about the reference file system -/

theorem lookup_upsert_self {β : Type} (ch : List (String × β)) (k : String) (v : β) :
    (upsert ch k v).lookup k = some v := by
  induction ch with
  | nil => simp [upsert, List.lookup]
  | cons kv rest ih =>
    obtain ⟨k', x⟩ := kv
    by_cases h : k' = k
    · simp [upsert, h, List.lookup]
    · have h' : (k == k') = false := by simpa using Ne.symm h
      simp [upsert, h, List.lookup, h', ih]

theorem lookup_upsert_ne {β : Type} (ch : List (String × β)) (k k' : String) (v : β)
    (hne : k' ≠ k) : (upsert ch k v).lookup k' = ch.lookup k' := by
  induction ch with
  | nil =>
    have h' : (k' == k) = false := by simpa using hne
    simp [upsert, List.lookup, h']
  | cons kv rest ih =>
    obtain ⟨k0, x⟩ := kv
    by_cases h : k0 = k
    · subst h
      have h' : (k' == k0) = false := by simpa using hne
      simp [upsert, List.lookup, h']
    · by_cases h2 : k' = k0
      · subst h2; simp [upsert, h, List.lookup]
      · have h' : (k' == k0) = false := by simpa using h2
        simp [upsert, h, List.lookup, h', ih]

theorem upsert_of_lookup {β : Type} (ch : List (String × β)) (k : String) (v : β)
    (h : ch.lookup k = some v) : upsert ch k v = ch := by
  induction ch with
  | nil => simp [List.lookup] at h
  | cons kv rest ih =>
    obtain ⟨k0, x⟩ := kv
    by_cases h0 : k0 = k
    · subst h0
      simp [List.lookup] at h
      simp [upsert, h]
    · have h' : (k == k0) = false := by simpa using Ne.symm h0
      simp [List.lookup, h'] at h
      simp [upsert, h0, ih h]

theorem mkdirAll_of_walk_dir (p : List String) (t : Node) (ch : List (String × Node))
    (h : t.walk p = .ok (.dir ch)) : t.mkdirAll p = .ok t := by
  induction p generalizing t with
  | nil =>
    simp [Node.walk] at h
    subst h
    simp [Node.mkdirAll]
  | cons e rest ih =>
    cases t with
    | file c => simp [Node.walk] at h
    | dir ch0 =>
      by_cases hl0 : tooLong e = true
      · simp [Node.walk, hl0] at h
      · cases hl : ch0.lookup e with
        | none => simp [Node.walk, hl0, hl] at h
        | some t1 =>
          simp [Node.walk, hl0, hl] at h
          simp [Node.mkdirAll, hl0, hl, ih t1 h, upsert_of_lookup ch0 e t1 hl]

theorem create_walk_self (p : List String) (t t' : Node) (content : Bytes)
    (h : t.create p content = .ok t') : t'.walk p = .ok (.file content) := by
  induction p generalizing t t' with
  | nil =>
    cases t with
    | file c => simp [Node.create] at h; subst h; simp [Node.walk]
    | dir ch => simp [Node.create] at h
  | cons e rest ih =>
    cases t with
    | file c => simp [Node.create] at h
    | dir ch =>
      by_cases hl0 : tooLong e = true
      · simp [Node.create, hl0] at h
      · cases hl : ch.lookup e with
        | none =>
          by_cases hr : rest = []
          · subst hr
            simp [Node.create, hl0, hl] at h
            subst h
            simp [Node.walk, hl0, lookup_upsert_self]
          · simp [Node.create, hl0, hl, hr] at h
        | some t1 =>
          cases hc : t1.create rest content with
          | error err => simp [Node.create, hl0, hl, hc] at h
          | ok t1' =>
            simp [Node.create, hl0, hl, hc] at h
            subst h
            simp [Node.walk, hl0, lookup_upsert_self, ih t1 t1' hc]

theorem create_walk_parent (R : List String) (t t' : Node) (ch : List (String × Node))
    (f : String) (content : Bytes)
    (hw : t.walk R = .ok (.dir ch)) (h : t.create (R ++ [f]) content = .ok t') :
    t'.walk R = .ok (.dir (upsert ch f (.file content))) := by
  induction R generalizing t t' with
  | nil =>
    simp [Node.walk] at hw
    subst hw
    by_cases hl0 : tooLong f = true
    · simp [Node.create, hl0] at h
    · cases hl : ch.lookup f with
      | none =>
        simp [Node.create, hl0, hl] at h
        subst h
        simp [Node.walk]
      | some t1 =>
        cases t1 with
        | file c =>
          simp [Node.create, hl0, hl] at h
          subst h
          simp [Node.walk]
        | dir ch1 => simp [Node.create, hl0, hl] at h
  | cons e rest ih =>
    cases t with
    | file c => simp [Node.walk] at hw
    | dir ch0 =>
      by_cases hl0 : tooLong e = true
      · simp [Node.walk, hl0] at hw
      · cases hl : ch0.lookup e with
        | none => simp [Node.walk, hl0, hl] at hw
        | some t1 =>
          simp [Node.walk, hl0, hl] at hw
          cases hc : t1.create (rest ++ [f]) content with
          | error err => simp [Node.create, hl0, hl, hc] at h
          | ok t1' =>
            simp [Node.create, hl0, hl, hc] at h
            subst h
            simp [Node.walk, hl0, lookup_upsert_self, ih t1 t1' hw hc]

theorem walk_snoc (R : List String) (t : Node) (ch : List (String × Node)) (f : String)
    (hw : t.walk R = .ok (.dir ch)) :
    t.walk (R ++ [f]) =
      if tooLong f then .error ENAMETOOLONG
      else
        match ch.lookup f with
        | some n => .ok n
        | none => .error ENOENT := by
  induction R generalizing t with
  | nil =>
    simp [Node.walk] at hw
    subst hw
    by_cases hl0 : tooLong f = true
    · simp [Node.walk, hl0]
    · cases hl : ch.lookup f <;> simp [Node.walk, hl0, hl]
  | cons e rest ih =>
    cases t with
    | file c => simp [Node.walk] at hw
    | dir ch0 =>
      by_cases hl0 : tooLong e = true
      · simp [Node.walk, hl0] at hw
      · cases hl : ch0.lookup e with
        | none => simp [Node.walk, hl0, hl] at hw
        | some t1 =>
          simp [Node.walk, hl0, hl] at hw
          simp [Node.walk, hl0, hl, ih t1 hw]

theorem entriesOf_upsert_file (ch : List (String × Node)) (names : List String)
    (n : String) (content : Bytes)
    (h : entriesOf ch = names.map (fun n => ⟨n, false⟩)) :
    entriesOf (upsert ch n (.file content)) = (addName names n).map (fun n => ⟨n, false⟩) := by
  induction ch generalizing names with
  | nil =>
    cases names with
    | nil => simp [upsert, entriesOf, addName, Node.IsDir]
    | cons l ls => simp [entriesOf] at h
  | cons kv rest ih =>
    obtain ⟨k, x⟩ := kv
    cases names with
    | nil => simp [entriesOf] at h
    | cons l ls =>
      simp only [entriesOf, List.map_cons, List.cons.injEq, DirEntry.mk.injEq] at h
      obtain ⟨⟨hk, hx⟩, hrest⟩ := h
      subst hk
      by_cases hkn : k = n
      · subst hkn
        simp [upsert, entriesOf, addName, Node.IsDir]
        exact hrest
      · have ih' := ih ls hrest
        have hnk : ¬ n = k := fun e => hkn e.symm
        simp only [upsert, hkn, if_false, entriesOf, List.map_cons] at ih' ⊢
        rw [ih']
        unfold addName
        by_cases hm : n ∈ ls
        · simp [hm, hx]
        · simp [hm, hnk, hx]

theorem addName_nodup (l : List String) (n : String) (h : l.Nodup) : (addName l n).Nodup := by
  unfold addName
  by_cases hm : n ∈ l
  · simp [hm, h]
  · simp only [hm, if_false]
    exact List.Nodup.append h (List.nodup_singleton n) (by
      intro a ha hb
      simp at hb
      exact hm (hb ▸ ha))

theorem mem_addName (l : List String) (n a : String) : a ∈ addName l n ↔ a ∈ l ∨ a = n := by
  unfold addName
  by_cases hm : n ∈ l
  · simp only [hm, if_true]
    constructor
    · exact Or.inl
    · rintro (h | h)
      · exact h
      · exact h ▸ hm
  · simp [hm]

theorem foldl_addName_nodup (ns l : List String) (h : l.Nodup) :
    (ns.foldl addName l).Nodup := by
  induction ns generalizing l with
  | nil => exact h
  | cons n ns ih => exact ih _ (addName_nodup l n h)

theorem mem_foldl_addName (ns l : List String) (a : String) :
    a ∈ ns.foldl addName l ↔ a ∈ l ∨ a ∈ ns := by
  induction ns generalizing l with
  | nil => simp
  | cons n ns ih =>
    simp only [List.foldl_cons, ih, mem_addName, List.mem_cons]
    tauto

theorem addUserFile_save {σ : Type} (sys : Sys σ) (s : UserFileServer) (c : Context) (w : σ)
    (file : FileHeader) (hid : c.PostForm "id" ≠ "") (hfile : c.FormFile "file" = .ok file) :
    addUserFile sys s c w =
      match sys.SaveUploadedFile w file (Join s.userFilesPath (c.PostForm "id" ++ ".json")) with
      | (some _, w') => (⟨500, [("error", .str "Failed to save file")]⟩, w')
      | (none, w') => (⟨200, [("message", .str "File uploaded successfully")]⟩, w') := by
  simp only [addUserFile, hid, hfile, if_false, StatusInternalServerError, StatusOK]

theorem save_child (fs : FS) (file : FileHeader) (p : CleanPath) (name : String)
    (ch : List (String × Node)) (hname : name ≠ "..")
    (hw : fs.tree.walk (fs.locate p) = .ok (.dir ch)) :
    ((fs.SaveUploadedFile file (p.child name)).1 ≠ none ∧
        (fs.SaveUploadedFile file (p.child name)).2 = fs) ∨
    ((fs.SaveUploadedFile file (p.child name)).1 = none ∧
      ∃ t2, fs.tree.create (fs.locate p ++ [name]) file.content = .ok t2 ∧
        (fs.SaveUploadedFile file (p.child name)).2 = { fs with tree := t2 }) := by
  have hm := mkdirAll_of_walk_dir _ _ _ hw
  have hl := locate_child fs p name hname
  cases hd : pathErrno p.render with
  | some e =>
    left
    simp only [FS.SaveUploadedFile, child_Dir, hd]
    exact ⟨by simp, trivial⟩
  | none =>
    cases hp : pathErrno (p.child name).render with
    | some e =>
      left
      simp only [FS.SaveUploadedFile, child_Dir, hd, hm, hp]
      exact ⟨by simp, trivial⟩
    | none =>
      cases hc : fs.tree.create (fs.locate p ++ [name]) file.content with
      | error e =>
        left
        simp only [FS.SaveUploadedFile, child_Dir, hd, hm, hp, hl, hc]
        exact ⟨by simp, trivial⟩
      | ok t2 =>
        right
        simp only [FS.SaveUploadedFile, child_Dir, hd, hm, hp, hl, hc]
        exact ⟨trivial, t2, rfl, rfl⟩

theorem locate_of_cwd (fs fs' : FS) (h : fs'.cwd = fs.cwd) (p : CleanPath) :
    fs'.locate p = fs.locate p := by
  simp [FS.locate, h]

theorem addUserFile_step (s : UserFileServer) (fs : FS) (c : Context) (names : List String)
    (hinv : rootHolds fs s.userFilesPath names) (hsep : sepFree (c.PostForm "id")) :
    (addUserFile refSys s c fs).2.cwd = fs.cwd ∧
    (((addUserFile refSys s c fs).1.status = 200 ∧
        rootHolds (addUserFile refSys s c fs).2 s.userFilesPath
          (addName names (c.PostForm "id" ++ ".json"))) ∨
     ((addUserFile refSys s c fs).1.status ≠ 200 ∧
        rootHolds (addUserFile refSys s c fs).2 s.userFilesPath names)) := by
  by_cases hid : c.PostForm "id" = ""
  · have : addUserFile refSys s c fs = (⟨400, [("error", .str "User ID is required")]⟩, fs) := by
      simp [addUserFile, hid, StatusBadRequest]
    rw [this]
    exact ⟨rfl, Or.inr ⟨by simp, hinv⟩⟩
  · cases hfile : c.FormFile "file" with
    | error e =>
      have : addUserFile refSys s c fs = (⟨400, [("error", .str "File is required")]⟩, fs) := by
        simp [addUserFile, hid, hfile, StatusBadRequest]
      rw [this]
      exact ⟨rfl, Or.inr ⟨by simp, hinv⟩⟩
    | ok file =>
      obtain ⟨ch, hw, hent⟩ := hinv
      have hne : c.PostForm "id" ++ ".json" ≠ ".." := json_name_ne _ ".." (by decide)
      have hcases := save_child fs file (Clean s.userFilesPath) (c.PostForm "id" ++ ".json")
        ch hne hw
      rw [← Join_json _ _ hsep] at hcases
      have hrs : refSys.SaveUploadedFile fs file
          (Join s.userFilesPath (c.PostForm "id" ++ ".json")) =
          fs.SaveUploadedFile file (Join s.userFilesPath (c.PostForm "id" ++ ".json")) := rfl
      rw [addUserFile_save refSys s c fs file hid hfile, hrs]
      rcases hs : fs.SaveUploadedFile file (Join s.userFilesPath (c.PostForm "id" ++ ".json"))
        with ⟨r, w'⟩
      rw [hs] at hcases
      rcases hcases with ⟨hr, hw'⟩ | ⟨hr, t2, hc, hw'⟩
      · simp only at hr hw'
        subst hw'
        cases r with
        | none => exact absurd rfl hr
        | some e => exact ⟨rfl, Or.inr ⟨by simp, ch, hw, hent⟩⟩
      · simp only at hr hw'
        subst hr
        subst hw'
        refine ⟨rfl, Or.inl ⟨rfl, upsert ch (c.PostForm "id" ++ ".json") (.file file.content), ?_,
          entriesOf_upsert_file ch names _ _ hent⟩⟩
        exact create_walk_parent _ _ _ ch _ _ hw hc

theorem serveUploads_cons {σ : Type} (sys : Sys σ) (s : UserFileServer) (c : Context)
    (cs : List Context) (w : σ) :
    serveUploads sys s (c :: cs) w =
      ((addUserFile sys s c w).1 :: (serveUploads sys s cs (addUserFile sys s c w).2).1,
       (serveUploads sys s cs (addUserFile sys s c w).2).2) := rfl

theorem serveUploads_inv (s : UserFileServer) (reqs : List Context) (fs : FS)
    (names : List String) (hinv : rootHolds fs s.userFilesPath names)
    (hsep : ∀ c ∈ reqs, sepFree (c.PostForm "id")) :
    ∃ names', rootHolds (serveUploads refSys s reqs fs).2 s.userFilesPath names' ∧
      (∀ n ∈ names', n ∈ names ∨ ∃ c ∈ reqs, n = c.PostForm "id" ++ ".json") ∧
      ((∀ r ∈ (serveUploads refSys s reqs fs).1, r.status = 200) →
        names' = (reqs.map (fun c => c.PostForm "id" ++ ".json")).foldl addName names) := by
  induction reqs generalizing fs names with
  | nil => exact ⟨names, hinv, fun n hn => Or.inl hn, fun _ => rfl⟩
  | cons c cs ih =>
    have hsep' : ∀ c' ∈ cs, sepFree (c'.PostForm "id") :=
      fun c' hc' => hsep c' (List.mem_cons_of_mem _ hc')
    obtain ⟨-, hstep⟩ := addUserFile_step s fs c names hinv (hsep c (List.mem_cons_self _ _))
    rw [serveUploads_cons]
    rcases hstep with ⟨hst, hinv1⟩ | ⟨hst, hinv1⟩
    · obtain ⟨names', h1, h2, h3⟩ := ih _ _ hinv1 hsep'
      refine ⟨names', h1, ?_, ?_⟩
      · intro n hn
        rcases h2 n hn with h | ⟨c', hc', hn'⟩
        · rcases (mem_addName _ _ _).1 h with h | h
          · exact Or.inl h
          · exact Or.inr ⟨c, List.mem_cons_self _ _, h⟩
        · exact Or.inr ⟨c', List.mem_cons_of_mem _ hc', hn'⟩
      · intro hall
        simp only [List.map_cons, List.foldl_cons]
        exact h3 (fun r hr => hall r (List.mem_cons_of_mem _ hr))
    · obtain ⟨names', h1, h2, -⟩ := ih _ _ hinv1 hsep'
      refine ⟨names', h1, ?_, ?_⟩
      · intro n hn
        rcases h2 n hn with h | ⟨c', hc', hn'⟩
        · exact Or.inl h
        · exact Or.inr ⟨c', List.mem_cons_of_mem _ hc', hn'⟩
      · intro hall
        exact absurd (hall _ (List.mem_cons_self _ _)) hst

theorem mkdirAll_walk_mono (q : List String) (t t' : Node) (p : List String) (n : Node)
    (h : t.mkdirAll q = .ok t') (hw : t.walk p = .ok n) : ∃ n', t'.walk p = .ok n' := by
  induction q generalizing t t' p n with
  | nil =>
    cases t with
    | file c => simp [Node.mkdirAll] at h
    | dir ch => simp [Node.mkdirAll] at h; subst h; exact ⟨n, hw⟩
  | cons e rest ih =>
    cases t with
    | file c => simp [Node.mkdirAll] at h
    | dir ch =>
      cases p with
      | nil => exact ⟨t', by simp [Node.walk]⟩
      | cons e' p' =>
        by_cases hl0 : tooLong e = true
        · simp [Node.mkdirAll, hl0] at h
        · by_cases hl0' : tooLong e' = true
          · simp [Node.walk, hl0'] at hw
          · cases hl' : ch.lookup e' with
            | none => simp [Node.walk, hl0', hl'] at hw
            | some tx =>
              simp only [Node.walk, hl0', hl'] at hw
              simp only [Node.mkdirAll, hl0] at h
              by_cases hee : e' = e
              · subst hee
                simp only [hl'] at h
                cases hm : tx.mkdirAll rest with
                | error err => simp [hm] at h
                | ok t1' =>
                  simp [hm] at h
                  subst h
                  obtain ⟨n', hn'⟩ := ih tx t1' p' n hm (by simpa using hw)
                  exact ⟨n', by simp [Node.walk, hl0', lookup_upsert_self, hn']⟩
              · cases hm : (match ch.lookup e with
                    | some t => t
                    | none => Node.dir []).mkdirAll rest with
                | error err => simp [hm] at h
                | ok t1' =>
                  simp [hm] at h
                  subst h
                  have hw' : tx.walk p' = .ok n := by simpa using hw
                  exact ⟨n, by
                    simp [Node.walk, hl0', lookup_upsert_ne _ _ _ _ hee, hl', hw']⟩

theorem create_walk_mono (q : List String) (t t' : Node) (content : Bytes)
    (p : List String) (n : Node)
    (h : t.create q content = .ok t') (hw : t.walk p = .ok n) : ∃ n', t'.walk p = .ok n' := by
  induction q generalizing t t' p n with
  | nil =>
    cases t with
    | file c =>
      cases p with
      | nil => exact ⟨t', by simp [Node.walk]⟩
      | cons e' p' => simp [Node.walk] at hw
    | dir ch => simp [Node.create] at h
  | cons e rest ih =>
    cases t with
    | file c => simp [Node.create] at h
    | dir ch =>
      cases p with
      | nil => exact ⟨t', by simp [Node.walk]⟩
      | cons e' p' =>
        by_cases hl0 : tooLong e = true
        · simp [Node.create, hl0] at h
        · by_cases hl0' : tooLong e' = true
          · simp [Node.walk, hl0'] at hw
          · cases hl' : ch.lookup e' with
            | none => simp [Node.walk, hl0', hl'] at hw
            | some tx =>
              have hw' : tx.walk p' = .ok n := by simpa [Node.walk, hl0', hl'] using hw
              by_cases hee : e' = e
              · subst hee
                cases hc : tx.create rest content with
                | error err => simp [Node.create, hl0, hl', hc] at h
                | ok t1' =>
                  simp [Node.create, hl0, hl', hc] at h
                  subst h
                  obtain ⟨n', hn'⟩ := ih tx t1' p' n hc hw'
                  exact ⟨n', by simp [Node.walk, hl0', lookup_upsert_self, hn']⟩
              · cases hl : ch.lookup e with
                | none =>
                  by_cases hr : rest = []
                  · simp [Node.create, hl0, hl, hr] at h
                    subst h
                    exact ⟨n, by
                      simp [Node.walk, hl0', lookup_upsert_ne _ _ _ _ hee, hl', hw']⟩
                  · simp [Node.create, hl0, hl, hr] at h
                | some t1 =>
                  cases hc : t1.create rest content with
                  | error err => simp [Node.create, hl0, hl, hc] at h
                  | ok t1' =>
                    simp [Node.create, hl0, hl, hc] at h
                    subst h
                    exact ⟨n, by
                      simp [Node.walk, hl0', lookup_upsert_ne _ _ _ _ hee, hl', hw']⟩

theorem save_mono (fs : FS) (file : FileHeader) (dst : CleanPath) (p : List String) (n : Node)
    (hw : fs.tree.walk p = .ok n) :
    (fs.SaveUploadedFile file dst).2.cwd = fs.cwd ∧
    ∃ n', (fs.SaveUploadedFile file dst).2.tree.walk p = .ok n' := by
  cases hd : pathErrno dst.Dir.render with
  | some e =>
    simp only [FS.SaveUploadedFile, hd]
    exact ⟨trivial, n, hw⟩
  | none =>
    cases hm : fs.tree.mkdirAll (fs.locate dst.Dir) with
    | error e =>
      simp only [FS.SaveUploadedFile, hd, hm]
      exact ⟨trivial, n, hw⟩
    | ok t1 =>
      obtain ⟨n1, hn1⟩ := mkdirAll_walk_mono _ _ _ _ _ hm hw
      cases hp : pathErrno dst.render with
      | some e =>
        simp only [FS.SaveUploadedFile, hd, hm, hp]
        exact ⟨trivial, n1, hn1⟩
      | none =>
        cases hc : t1.create (fs.locate dst) file.content with
        | error e =>
          simp only [FS.SaveUploadedFile, hd, hm, hp, hc]
          exact ⟨trivial, n1, hn1⟩
        | ok t2 =>
          simp only [FS.SaveUploadedFile, hd, hm, hp, hc]
          exact ⟨trivial, create_walk_mono _ _ _ _ _ _ hc hn1⟩

theorem addUserFile_mono (s : UserFileServer) (fs : FS) (c : Context) (p : List String)
    (n : Node) (hw : fs.tree.walk p = .ok n) :
    (addUserFile refSys s c fs).2.cwd = fs.cwd ∧
    ∃ n', (addUserFile refSys s c fs).2.tree.walk p = .ok n' := by
  by_cases hid : c.PostForm "id" = ""
  · have : addUserFile refSys s c fs = (⟨400, [("error", .str "User ID is required")]⟩, fs) := by
      simp [addUserFile, hid, StatusBadRequest]
    rw [this]; exact ⟨rfl, n, hw⟩
  · cases hfile : c.FormFile "file" with
    | error e =>
      have : addUserFile refSys s c fs = (⟨400, [("error", .str "File is required")]⟩, fs) := by
        simp [addUserFile, hid, hfile, StatusBadRequest]
      rw [this]; exact ⟨rfl, n, hw⟩
    | ok file =>
      have hm := save_mono fs file (Join s.userFilesPath (c.PostForm "id" ++ ".json")) p n hw
      rw [addUserFile_save refSys s c fs file hid hfile]
      have hrs : refSys.SaveUploadedFile fs file
          (Join s.userFilesPath (c.PostForm "id" ++ ".json")) =
          fs.SaveUploadedFile file (Join s.userFilesPath (c.PostForm "id" ++ ".json")) := rfl
      rw [hrs]
      rcases hs : fs.SaveUploadedFile file (Join s.userFilesPath (c.PostForm "id" ++ ".json"))
        with ⟨r, w'⟩
      rw [hs] at hm
      cases r <;> exact hm

theorem serveUploads_mono (s : UserFileServer) (reqs : List Context) (fs : FS)
    (p : List String) (n : Node) (hw : fs.tree.walk p = .ok n) :
    (serveUploads refSys s reqs fs).2.cwd = fs.cwd ∧
    ∃ n', (serveUploads refSys s reqs fs).2.tree.walk p = .ok n' := by
  induction reqs generalizing fs n with
  | nil => exact ⟨rfl, n, hw⟩
  | cons c cs ih =>
    obtain ⟨hc, n1, hn1⟩ := addUserFile_mono s fs c p n hw
    obtain ⟨hc2, n2, hn2⟩ := ih _ n1 hn1
    rw [serveUploads_cons]
    exact ⟨hc2.trans hc, n2, hn2⟩

theorem save_ok (fs : FS) (file : FileHeader) (dst : CleanPath)
    (h : (fs.SaveUploadedFile file dst).1 = none) :
    pathErrno dst.render = none ∧
    (fs.SaveUploadedFile file dst).2.cwd = fs.cwd ∧
    (fs.SaveUploadedFile file dst).2.tree.walk (fs.locate dst) = .ok (.file file.content) := by
  cases hd : pathErrno dst.Dir.render with
  | some e => simp [FS.SaveUploadedFile, hd] at h
  | none =>
    cases hm : fs.tree.mkdirAll (fs.locate dst.Dir) with
    | error e => simp [FS.SaveUploadedFile, hd, hm] at h
    | ok t1 =>
      cases hp : pathErrno dst.render with
      | some e => simp [FS.SaveUploadedFile, hd, hm, hp] at h
      | none =>
        cases hc : t1.create (fs.locate dst) file.content with
        | error e => simp [FS.SaveUploadedFile, hd, hm, hp, hc] at h
        | ok t2 =>
          simp only [FS.SaveUploadedFile, hd, hm, hp, hc]
          exact ⟨trivial, trivial, create_walk_self _ _ _ _ hc⟩

theorem addUserFile_ok_inv {σ : Type} (sys : Sys σ) (s : UserFileServer) (c : Context) (w : σ)
    (h : (addUserFile sys s c w).1.status = 200) :
    c.PostForm "id" ≠ "" ∧ ∃ file, c.FormFile "file" = .ok file ∧
      (sys.SaveUploadedFile w file (Join s.userFilesPath (c.PostForm "id" ++ ".json"))).1 = none ∧
      (addUserFile sys s c w).2 =
        (sys.SaveUploadedFile w file (Join s.userFilesPath (c.PostForm "id" ++ ".json"))).2 := by
  by_cases hid : c.PostForm "id" = ""
  · simp [addUserFile, hid, StatusBadRequest] at h
  · refine ⟨hid, ?_⟩
    cases hfile : c.FormFile "file" with
    | error e => simp [addUserFile, hid, hfile, StatusBadRequest] at h
    | ok file =>
      refine ⟨file, rfl, ?_⟩
      rw [addUserFile_save sys s c w file hid hfile] at h ⊢
      rcases hs : sys.SaveUploadedFile w file
        (Join s.userFilesPath (c.PostForm "id" ++ ".json")) with ⟨r, w'⟩
      rw [hs] at h
      cases r with
      | none => exact ⟨rfl, rfl⟩
      | some e => simp at h

theorem addUserFile_of_save_ok {σ : Type} (sys : Sys σ) (s : UserFileServer) (c : Context)
    (w : σ) (file : FileHeader) (hid : c.PostForm "id" ≠ "")
    (hfile : c.FormFile "file" = .ok file)
    (hsave : (sys.SaveUploadedFile w file
      (Join s.userFilesPath (c.PostForm "id" ++ ".json"))).1 = none) :
    addUserFile sys s c w = (⟨200, [("message", .str "File uploaded successfully")]⟩,
      (sys.SaveUploadedFile w file (Join s.userFilesPath (c.PostForm "id" ++ ".json"))).2) := by
  rw [addUserFile_save sys s c w file hid hfile]
  rcases hs : sys.SaveUploadedFile w file
    (Join s.userFilesPath (c.PostForm "id" ++ ".json")) with ⟨r, w'⟩
  rw [hs] at hsave
  simp only at hsave
  subst hsave
  rfl

theorem upload_then_read (s : UserFileServer) (fs : FS) (c : Context) (file : FileHeader)
    (hid : c.PostForm "id" ≠ "") (hfile : c.FormFile "file" = .ok file)
    (hsave : (refSys.SaveUploadedFile fs file
      (Join s.userFilesPath (c.PostForm "id" ++ ".json"))).1 = none) :
    (addUserFile refSys s c fs).1 = ⟨200, [("message", .str "File uploaded successfully")]⟩ ∧
    pathErrno (Join s.userFilesPath (c.PostForm "id" ++ ".json")).render = none ∧
    (addUserFile refSys s c fs).2.cwd = fs.cwd ∧
    (addUserFile refSys s c fs).2.tree.walk
      (fs.locate (Join s.userFilesPath (c.PostForm "id" ++ ".json")))
        = .ok (.file file.content) := by
  rw [addUserFile_of_save_ok refSys s c fs file hid hfile hsave]
  obtain ⟨h0, h1, h2⟩ := save_ok fs file _ hsave
  exact ⟨rfl, h0, h1, h2⟩

theorem ReadFile_of_walk (fs : FS) (p : CleanPath) (content : Bytes)
    (hp : pathErrno p.render = none)
    (h : fs.tree.walk (fs.locate p) = .ok (.file content)) : fs.ReadFile p = .ok content := by
  simp [FS.ReadFile, hp, h]

theorem checkUserFile_eq {σ : Type} (sys : Sys σ) (s : UserFileServer) (c : Context) (w : σ) :
    checkUserFile sys s c w
      = (⟨200, [("user_id", .str (c.Param "user_id")),
          ("exists", .bool (match sys.Stat w
              (Join s.userFilesPath (c.Param "user_id" ++ ".json")) with
            | .ok _ => true
            | .error e => !e.notExist))]⟩, w) := by
  cases h : sys.Stat w (Join s.userFilesPath (c.Param "user_id" ++ ".json")) <;>
    simp [checkUserFile, h, IsNotExist, StatusOK]

theorem lookup_none_of_not_mem {β : Type} (ch : List (String × β)) (k : String)
    (h : k ∉ ch.map Prod.fst) : ch.lookup k = none := by
  induction ch with
  | nil => rfl
  | cons kv rest ih =>
    obtain ⟨k0, x⟩ := kv
    simp only [List.map_cons, List.mem_cons, not_or] at h
    have h' : (k == k0) = false := by simpa using h.1
    simp [List.lookup, h', ih h.2]

theorem names_of_entriesOf (ch : List (String × Node)) (names : List String)
    (h : entriesOf ch = names.map (fun n => ⟨n, false⟩)) : ch.map Prod.fst = names := by
  have := congrArg (List.map DirEntry.Name) h
  simpa [entriesOf, Function.comp_def] using this

theorem rootHolds_of_ReadDir_nil (fs : FS) (root : String) (h : fs.ReadDir root = .ok []) :
    root ≠ "" ∧ pathErrno root = none ∧ rootHolds fs root [] := by
  by_cases hr : root = ""
  · simp [FS.ReadDir, hr] at h
  · refine ⟨hr, ?_⟩
    cases hp : pathErrno root with
    | some e => simp [FS.ReadDir, hr, hp] at h
    | none =>
      refine ⟨rfl, ?_⟩
      cases hw : fs.tree.walk (fs.locate (Clean root)) with
      | error e => simp [FS.ReadDir, hr, hp, hw] at h
      | ok n =>
        cases n with
        | file c => simp [FS.ReadDir, hr, hp, hw] at h
        | dir ch =>
          simp [FS.ReadDir, hr, hp, hw] at h
          refine ⟨ch, hw, ?_⟩
          have hl := congrArg List.length h
          simp [sortEntries, List.length_insertionSort] at hl
          simp [hl]

theorem ReadDir_of_rootHolds (fs : FS) (root : String) (names : List String)
    (hr : root ≠ "") (hp : pathErrno root = none) (h : rootHolds fs root names) :
    fs.ReadDir root = .ok (sortEntries (names.map (fun n => ⟨n, false⟩))) := by
  obtain ⟨ch, hw, he⟩ := h
  simp [FS.ReadDir, hr, hp, hw, he]

theorem endsInJson_json_name (userID : String) : endsInJson (userID ++ ".json") :=
  ⟨userID.data, by simp [String.data_append]⟩

theorem userFilesOf_sorted_perm (names : List String) (hj : ∀ n ∈ names, endsInJson n) :
    (userFilesOf (sortEntries (names.map (fun n => ⟨n, false⟩)))).Perm names := by
  have hperm : (sortEntries (names.map (fun n => (⟨n, false⟩ : DirEntry)))).Perm
      (names.map (fun n => ⟨n, false⟩)) := List.perm_insertionSort _ _
  rw [userFilesOf_eq, jsonFileNames]
  have hall : ∀ f ∈ sortEntries (names.map (fun n => (⟨n, false⟩ : DirEntry))),
      (!f.IsDir && decide (endsInJson f.Name)) = true := by
    intro f hf
    have hf' := hperm.mem_iff.1 hf
    obtain ⟨n, hn, rfl⟩ := List.mem_map.1 hf'
    simp [hj n hn]
  rw [List.filter_eq_self.2 hall]
  have := hperm.map (fun f => f.Name)
  simpa [Function.comp_def] using this

/-! ## The properties of the specification -/

/-- C1: for every store, every non-empty user ID without a path separator and every
uploaded content, when the save succeeds the response is 200 "File uploaded
successfully" and the file `<id>.json` directly under the root holds exactly
the uploaded bytes; and after a second successful upload for the same ID both
responses are 200 and the file holds the second content. -/
theorem upload_stores_content (s : UserFileServer) (fs : FS) (c : Context) (file : FileHeader)
    (hid : c.PostForm "id" ≠ "") (hsep : sepFree (c.PostForm "id"))
    (hfile : c.FormFile "file" = .ok file)
    (hsave : (refSys.SaveUploadedFile fs file
      (Join s.userFilesPath (c.PostForm "id" ++ ".json"))).1 = none) :
    (addUserFile refSys s c fs).1 = ⟨200, [("message", .str "File uploaded successfully")]⟩ ∧
    (addUserFile refSys s c fs).2.ReadFile
        ((Clean s.userFilesPath).child (c.PostForm "id" ++ ".json")) = .ok file.content ∧
    ∀ (c2 : Context) (file2 : FileHeader),
      c2.PostForm "id" = c.PostForm "id" → c2.FormFile "file" = .ok file2 →
      (refSys.SaveUploadedFile (addUserFile refSys s c fs).2 file2
        (Join s.userFilesPath (c2.PostForm "id" ++ ".json"))).1 = none →
      (serveUploads refSys s [c, c2] fs).1 =
        [⟨200, [("message", .str "File uploaded successfully")]⟩,
         ⟨200, [("message", .str "File uploaded successfully")]⟩] ∧
      (serveUploads refSys s [c, c2] fs).2.ReadFile
        ((Clean s.userFilesPath).child (c.PostForm "id" ++ ".json")) = .ok file2.content := by
  obtain ⟨h1, hp1, hc1, hw1⟩ := upload_then_read s fs c file hid hfile hsave
  refine ⟨h1, ?_, ?_⟩
  · rw [← Join_json _ _ hsep]
    apply ReadFile_of_walk _ _ _ hp1
    rw [locate_of_cwd _ _ hc1]
    exact hw1
  · intro c2 file2 hid2 hfile2 hsave2
    obtain ⟨h2, hp2, hc2, hw2⟩ := upload_then_read s _ c2 file2 (hid2 ▸ hid) hfile2 hsave2
    have hrun : serveUploads refSys s [c, c2] fs =
        ([(addUserFile refSys s c fs).1,
          (addUserFile refSys s c2 (addUserFile refSys s c fs).2).1],
         (addUserFile refSys s c2 (addUserFile refSys s c fs).2).2) := rfl
    rw [hrun]
    refine ⟨by rw [h1, h2], ?_⟩
    rw [← Join_json _ _ hsep, ← hid2]
    apply ReadFile_of_walk _ _ _ hp2
    rw [locate_of_cwd _ _ hc2]
    exact hw2

theorem upload_stores_content_witness :
    (addUserFile refSys testServer (uploadRequest "testuser" [1, 2, 3]) testStore).1
      = ⟨200, [("message", .str "File uploaded successfully")]⟩ ∧
    (addUserFile refSys testServer (uploadRequest "testuser" [1, 2, 3]) testStore).2.ReadFile
      ⟨false, ["user_files_test", "testuser.json"]⟩ = .ok [1, 2, 3] ∧
    (serveUploads refSys testServer
      [uploadRequest "testuser" [1, 2, 3], uploadRequest "testuser" [4]] testStore).2.ReadFile
      ⟨false, ["user_files_test", "testuser.json"]⟩ = .ok [4] :=
  have h := upload_stores_content testServer testStore (uploadRequest "testuser" [1, 2, 3])
    ⟨"test.json", [1, 2, 3]⟩ (by decide) (by decide) (by decide) (by decide)
  ⟨h.1, h.2.1,
   (h.2.2 (uploadRequest "testuser" [4]) ⟨"test.json", [4]⟩
      (by decide) (by decide) (by decide)).2⟩

set_option maxRecDepth 100000 in
/-- C2 as stated fails: into an empty root, the one upload with the ID `x/../b`
succeeds; no upload was made for `b`, yet `checkUserFile` for `b` answers
`exists = true` (both IDs give the path `user_files_test/b.json`). And with no
upload at all, `checkUserFile` answers `exists = true` for an ID of 300 letters
(the stat fails with `ENAMETOOLONG`) and for an ID holding a NUL byte (`EINVAL`). -/
theorem existence_alias_counterexample :
    testStore.ReadDir testServer.userFilesPath = .ok [] ∧
    (serveUploads refSys testServer [uploadRequest "x/../b" [1, 2]] testStore).1
      = [⟨200, [("message", .str "File uploaded successfully")]⟩] ∧
    "b" ≠ "x/../b" ∧
    (checkUserFile refSys testServer (checkRequest "b")
      (serveUploads refSys testServer [uploadRequest "x/../b" [1, 2]] testStore).2).1
      = ⟨200, [("user_id", .str "b"), ("exists", .bool true)]⟩ ∧
    (checkUserFile refSys testServer (checkRequest (String.mk (List.replicate 300 'a')))
      testStore).1
      = ⟨200, [("user_id", .str (String.mk (List.replicate 300 'a'))),
          ("exists", .bool true)]⟩ ∧
    (checkUserFile refSys testServer (checkRequest (String.mk ['a', Char.ofNat 0, 'b']))
      testStore).1
      = ⟨200, [("user_id", .str (String.mk ['a', Char.ofNat 0, 'b'])),
          ("exists", .bool true)]⟩ := by
  decide

/-- C2, amended: (1) for every user ID and every store, after a successful upload
for the ID, and whatever uploads follow, `checkUserFile` for it answers
`exists = true`; (2) into an initially empty root, whichever uploads with IDs
without a path separator were requested, for every ID without a path separator
for which none was requested and whose file the file system can name (a path
without NUL byte and shorter than `PATH_MAX`, a name of at most `NAME_MAX`
bytes), the stat reports "not found" and `checkUserFile` answers
`exists = false`. -/
theorem existence_reflects_uploads (s : UserFileServer) :
    (∀ (fs : FS) (c : Context) (more : List Context) (chk : Context),
      (addUserFile refSys s c fs).1.status = 200 →
      chk.Param "user_id" = c.PostForm "id" →
      (checkUserFile refSys s chk
          (serveUploads refSys s more (addUserFile refSys s c fs).2).2).1
        = ⟨200, [("user_id", .str (chk.Param "user_id")), ("exists", .bool true)]⟩) ∧
    (∀ (fs0 : FS) (reqs : List Context) (chk : Context),
      fs0.ReadDir s.userFilesPath = .ok [] →
      (∀ c ∈ reqs, sepFree (c.PostForm "id")) →
      sepFree (chk.Param "user_id") →
      (∀ c ∈ reqs, c.PostForm "id" ≠ chk.Param "user_id") →
      pathErrno (Join s.userFilesPath (chk.Param "user_id" ++ ".json")).render = none →
      tooLong (chk.Param "user_id" ++ ".json") = false →
      refSys.Stat (serveUploads refSys s reqs fs0).2
          (Join s.userFilesPath (chk.Param "user_id" ++ ".json")) = .error ENOENT ∧
      (checkUserFile refSys s chk (serveUploads refSys s reqs fs0).2).1
        = ⟨200, [("user_id", .str (chk.Param "user_id")), ("exists", .bool false)]⟩) := by
  constructor
  · intro fs c more chk hok hparam
    obtain ⟨hid, file, hfile, hsave, -⟩ := addUserFile_ok_inv refSys s c fs hok
    obtain ⟨-, hp1, hc1, hw1⟩ := upload_then_read s fs c file hid hfile hsave
    obtain ⟨hc2, n, hn⟩ := serveUploads_mono s more _ _ _ hw1
    rw [checkUserFile_eq, hparam]
    have hstat : refSys.Stat (serveUploads refSys s more (addUserFile refSys s c fs).2).2
        (Join s.userFilesPath (c.PostForm "id" ++ ".json")) =
        .ok ⟨((Join s.userFilesPath (c.PostForm "id" ++ ".json")).elems.getLast?).getD
          (if (Join s.userFilesPath (c.PostForm "id" ++ ".json")).rooted then "/" else "."),
          n.IsDir⟩ := by
      show FS.Stat _ _ = _
      unfold FS.Stat
      rw [hp1, locate_of_cwd _ _ (hc2.trans hc1), hn]
    rw [hstat]
  · intro fs0 reqs chk hempty hsep hsepV hne hpV hlen
    obtain ⟨hroot, -, hinv0⟩ := rootHolds_of_ReadDir_nil fs0 _ hempty
    obtain ⟨names, ⟨ch, hw, hent⟩, hmem, -⟩ := serveUploads_inv s reqs fs0 [] hinv0 hsep
    have hnot : chk.Param "user_id" ++ ".json" ∉ ch.map Prod.fst := by
      rw [names_of_entriesOf ch names hent]
      intro hin
      rcases hmem _ hin with h | ⟨c, hc, heq⟩
      · simp at h
      · exact hne c hc (json_name_injective heq).symm
    have hstat : refSys.Stat (serveUploads refSys s reqs fs0).2
        (Join s.userFilesPath (chk.Param "user_id" ++ ".json")) = .error ENOENT := by
      show FS.Stat _ _ = _
      unfold FS.Stat
      rw [hpV, Join_json _ _ hsepV, locate_child _ _ _ (json_name_ne _ ".." (by decide)),
        walk_snoc _ _ ch _ hw, hlen, lookup_none_of_not_mem ch _ hnot]
      rfl
    refine ⟨hstat, ?_⟩
    rw [checkUserFile_eq, hstat]
    rfl

theorem existence_reflects_uploads_witness :
    (checkUserFile refSys testServer (checkRequest "existinguser")
        (serveUploads refSys testServer [uploadRequest "other" [7]]
          (addUserFile refSys testServer (uploadRequest "existinguser" [1]) testStore).2).2).1
      = ⟨200, [("user_id", .str "existinguser"), ("exists", .bool true)]⟩ ∧
    (checkUserFile refSys testServer (checkRequest "nonexistentuser")
        (serveUploads refSys testServer
          [uploadRequest "user1" [1], uploadRequest "user2" [2]] testStore).2).1
      = ⟨200, [("user_id", .str "nonexistentuser"), ("exists", .bool false)]⟩ :=
  ⟨(existence_reflects_uploads testServer).1 testStore (uploadRequest "existinguser" [1])
      [uploadRequest "other" [7]] (checkRequest "existinguser") (by decide) (by decide),
   ((existence_reflects_uploads testServer).2 testStore
      [uploadRequest "user1" [1], uploadRequest "user2" [2]] (checkRequest "nonexistentuser")
      (by decide) (by decide) (by decide) (by decide) (by decide) (by decide)).2⟩

/-- C3 as stated fails: when the stat fails with "permission denied", which is
not a "not found" error, `checkUserFile` answers `exists = true`. -/
theorem checkUserFile_permission_denied_counterexample :
    EACCES.notExist = false ∧
    (failing EACCES).Stat () (Join "/user_files" ("user1" ++ ".json")) = .error EACCES ∧
    (checkUserFile (failing EACCES) ⟨":80", "/user_files"⟩
        (Context.mk [("user_id", "user1")] [] []) ()).1
      = ⟨200, [("user_id", .str "user1"), ("exists", .bool true)]⟩ := by
  decide

/-- C3, amended: `checkUserFile` answers `exists = false` exactly when the stat
fails with a "not found" error; when the stat succeeds, and when it fails
with any other error, it answers `exists = true`. -/
theorem checkUserFile_exists_iff {σ : Type} (sys : Sys σ) (s : UserFileServer)
    (c : Context) (w : σ) :
    (checkUserFile sys s c w).1
      = ⟨200, [("user_id", .str (c.Param "user_id")),
          ("exists", .bool (match sys.Stat w
              (Join s.userFilesPath (c.Param "user_id" ++ ".json")) with
            | .ok _ => true
            | .error e => !e.notExist))]⟩ := by
  rw [checkUserFile_eq]

/-- C4: an upload whose form has no `id`, or an empty one, is answered with 400
and "User ID is required" whatever else the request holds and whatever the
system would do; the storage is the one it was (for every system, so no
save is made). -/
theorem addUserFile_missing_id {σ : Type} (sys : Sys σ) (s : UserFileServer)
    (c : Context) (w : σ)
    (h : c.postForm.lookup "id" = none ∨ c.postForm.lookup "id" = some "") :
    addUserFile sys s c w = (⟨400, [("error", .str "User ID is required")]⟩, w) := by
  have hid : c.PostForm "id" = "" := by
    rcases h with h | h <;> simp [Context.PostForm, h]
  simp [addUserFile, hid, StatusBadRequest]

theorem addUserFile_missing_id_witness :
    ((Context.mk [] [("name", "x")] [("file", ⟨"test.json", [1]⟩)]).postForm.lookup "id" = none
      ∨ (Context.mk [] [("name", "x")] [("file", ⟨"test.json", [1]⟩)]).postForm.lookup "id"
          = some "") ∧
    (addUserFile refSys testServer
        (Context.mk [] [("name", "x")] [("file", ⟨"test.json", [1]⟩)]) testStore).1
      = ⟨400, [("error", .str "User ID is required")]⟩ :=
  ⟨Or.inl (by decide),
   congrArg Prod.fst (addUserFile_missing_id refSys _ _ _ (Or.inl (by decide)))⟩

/-- C5 as stated fails: a request with neither `id` nor file part is answered
"User ID is required", not "File is required". -/
theorem addUserFile_missing_file_counterexample :
    (Context.mk [] [] []).FormFile "file" = .error ErrMissingFile ∧
    (addUserFile refSys testServer (Context.mk [] [] []) testStore).1
      = ⟨400, [("error", .str "User ID is required")]⟩ ∧
    (addUserFile refSys testServer (Context.mk [] [] []) testStore).1
      ≠ ⟨400, [("error", .str "File is required")]⟩ := by
  decide

/-- C5, amended: an upload with a non-empty `id` and no file part is answered with
400 and "File is required", and the storage is the one it was, for every system. -/
theorem addUserFile_missing_file {σ : Type} (sys : Sys σ) (s : UserFileServer)
    (c : Context) (w : σ) (e : GoError)
    (hid : c.PostForm "id" ≠ "") (hfile : c.FormFile "file" = .error e) :
    addUserFile sys s c w = (⟨400, [("error", .str "File is required")]⟩, w) := by
  simp [addUserFile, hid, hfile, StatusBadRequest]

theorem addUserFile_missing_file_witness :
    (Context.mk [] [("id", "testuser")] []).PostForm "id" ≠ "" ∧
    (Context.mk [] [("id", "testuser")] []).FormFile "file" = .error ErrMissingFile ∧
    (addUserFile refSys testServer (Context.mk [] [("id", "testuser")] []) testStore).1
      = ⟨400, [("error", .str "File is required")]⟩ :=
  ⟨by decide, by decide,
   congrArg Prod.fst
     (addUserFile_missing_file refSys _ _ _ ErrMissingFile (by decide) (by decide))⟩

/-- C6: when reading the root yields `files`, `listUsers` answers 200 with `users`
the names, in the same order, of the entries that are not directories and whose
name ends in `.json` (full file names); the test `filepath.Ext(name) == ".json"`
of the code agrees with "ends in `.json`" for every name; and when no entry
qualifies the answer is still 200, with no user. -/
theorem listUsers_json_filter {σ : Type} (sys : Sys σ) (s : UserFileServer)
    (c : Context) (w : σ) (files : List DirEntry)
    (h : sys.ReadDir w s.userFilesPath = .ok files) :
    listUsers sys s c w = (⟨200, [("users", .strings (jsonFileNames files))]⟩, w) ∧
    (∀ name : String, Ext name = ".json" ↔ endsInJson name) ∧
    ((∀ f ∈ files, f.IsDir = true ∨ ¬ endsInJson f.Name) →
      listUsers sys s c w = (⟨200, [("users", .strings [])]⟩, w)) := by
  have h1 : listUsers sys s c w = (⟨200, [("users", .strings (jsonFileNames files))]⟩, w) := by
    simp [listUsers, h, StatusOK, userFilesOf_eq]
  refine ⟨h1, Ext_eq_json_iff, ?_⟩
  intro hnone
  rw [h1]
  have : jsonFileNames files = [] := by
    unfold jsonFileNames
    rw [List.map_eq_nil_iff, List.filter_eq_nil_iff]
    intro f hf
    rcases hnone f hf with hd | hn
    · simp [hd]
    · simp [hn]
  rw [this]

theorem listUsers_json_filter_witness :
    refSys.ReadDir ⟨["srv"], .dir [("srv", .dir [("user_files_test",
        .dir [("user2.json", .file [1]), ("notes.txt", .file []), ("old.json", .dir []),
          ("user1.json", .file [2])])])]⟩ testServer.userFilesPath
      = .ok [⟨"notes.txt", false⟩, ⟨"old.json", true⟩, ⟨"user1.json", false⟩,
          ⟨"user2.json", false⟩] ∧
    (listUsers refSys testServer (Context.mk [] [] [])
      ⟨["srv"], .dir [("srv", .dir [("user_files_test",
        .dir [("user2.json", .file [1]), ("notes.txt", .file []), ("old.json", .dir []),
          ("user1.json", .file [2])])])]⟩).1
      = ⟨200, [("users", .strings ["user1.json", "user2.json"])]⟩ :=
  ⟨by decide,
   congrArg Prod.fst (listUsers_json_filter refSys testServer (Context.mk [] [] [])
      ⟨["srv"], .dir [("srv", .dir [("user_files_test",
        .dir [("user2.json", .file [1]), ("notes.txt", .file []), ("old.json", .dir []),
          ("user1.json", .file [2])])])]⟩
      [⟨"notes.txt", false⟩, ⟨"old.json", true⟩, ⟨"user1.json", false⟩, ⟨"user2.json", false⟩]
      (by decide)).1⟩

/-- C7: into an initially empty root, after uploads that all succeed (in any order,
repeats allowed) for user IDs without a path separator, `listUsers` answers 200
and `users` holds exactly the names `<id>.json` of the uploaded IDs, each once;
its length is the number of distinct IDs. -/
theorem listUsers_after_uploads (s : UserFileServer) (fs0 : FS) (reqs : List Context)
    (c : Context)
    (hempty : fs0.ReadDir s.userFilesPath = .ok [])
    (hsep : ∀ r ∈ reqs, sepFree (r.PostForm "id"))
    (hok : ∀ r ∈ (serveUploads refSys s reqs fs0).1, r.status = 200) :
    ∃ users : List String,
      (listUsers refSys s c (serveUploads refSys s reqs fs0).2).1
        = ⟨200, [("users", .strings users)]⟩ ∧
      users.Nodup ∧
      (∀ n, n ∈ users ↔ ∃ r ∈ reqs, n = r.PostForm "id" ++ ".json") ∧
      users.length = (reqs.map (fun r => r.PostForm "id")).toFinset.card := by
  obtain ⟨hroot, hproot, hinv0⟩ := rootHolds_of_ReadDir_nil fs0 _ hempty
  obtain ⟨names, hinv, -, hnames⟩ := serveUploads_inv s reqs fs0 [] hinv0 hsep
  have hnames := hnames hok
  have hnd : names.Nodup := by
    rw [hnames]; exact foldl_addName_nodup _ _ List.nodup_nil
  have hmem : ∀ n, n ∈ names ↔ ∃ r ∈ reqs, n = r.PostForm "id" ++ ".json" := by
    intro n
    rw [hnames, mem_foldl_addName]
    simp only [List.not_mem_nil, false_or, List.mem_map]
    constructor
    · rintro ⟨r, hr, rfl⟩; exact ⟨r, hr, rfl⟩
    · rintro ⟨r, hr, rfl⟩; exact ⟨r, hr, rfl⟩
  have hj : ∀ n ∈ names, endsInJson n := by
    intro n hn
    obtain ⟨r, -, rfl⟩ := (hmem n).1 hn
    exact endsInJson_json_name _
  have hperm := userFilesOf_sorted_perm names hj
  refine ⟨userFilesOf (sortEntries (names.map (fun n => ⟨n, false⟩))), ?_,
    hperm.nodup_iff.2 hnd, fun n => (hperm.mem_iff).trans (hmem n), ?_⟩
  · have hread : refSys.ReadDir (serveUploads refSys s reqs fs0).2 s.userFilesPath
        = .ok (sortEntries (names.map (fun n => ⟨n, false⟩))) :=
      ReadDir_of_rootHolds _ _ names hroot hproot hinv
    simp [listUsers, hread, StatusOK]
  · rw [hperm.length_eq, ← List.toFinset_card_of_nodup hnd]
    have hset : names.toFinset =
        (reqs.map (fun r => r.PostForm "id")).toFinset.image (fun u => u ++ ".json") := by
      ext n
      simp only [List.mem_toFinset, Finset.mem_image, List.mem_map, hmem]
      constructor
      · rintro ⟨r, hr, rfl⟩; exact ⟨_, ⟨r, hr, rfl⟩, rfl⟩
      · rintro ⟨_, ⟨r, hr, rfl⟩, rfl⟩; exact ⟨r, hr, rfl⟩
    rw [hset, Finset.card_image_of_injective _ json_name_injective]

theorem listUsers_after_uploads_witness :
    ∃ users : List String,
      (listUsers refSys testServer (Context.mk [] [] [])
        (serveUploads refSys testServer
          [uploadRequest "user2" [1], uploadRequest "user1" [2], uploadRequest "user3" [3],
            uploadRequest "user2" [4]] testStore).2).1
        = ⟨200, [("users", .strings users)]⟩ ∧
      users.Nodup ∧
      (∀ n, n ∈ users ↔ ∃ r ∈ [uploadRequest "user2" [1], uploadRequest "user1" [2],
          uploadRequest "user3" [3], uploadRequest "user2" [4]], n = r.PostForm "id" ++ ".json") ∧
      users.length = 3 :=
  listUsers_after_uploads testServer testStore
    [uploadRequest "user2" [1], uploadRequest "user1" [2], uploadRequest "user3" [3],
      uploadRequest "user2" [4]] (Context.mk [] [] []) (by decide) (by decide) (by decide)

/-- C8: for every system (so for every storage and every outcome of the stat) and
every `user_id` parameter, `checkUserFile` answers 200 with exactly the fields
`user_id`, equal to the parameter as given, and `exists`, a boolean; the
storage is untouched. -/
theorem checkUserFile_always_ok {σ : Type} (sys : Sys σ) (s : UserFileServer)
    (c : Context) (w : σ) :
    ∃ b : Bool, checkUserFile sys s c w
      = (⟨200, [("user_id", .str (c.Param "user_id")), ("exists", .bool b)]⟩, w) :=
  ⟨_, rfl⟩

/-- C9: whatever error the save returns (the id being non-empty and the file part
present), `addUserFile` answers exactly 500 "Failed to save file"; whatever
error reading the root returns, `listUsers` answers exactly 500 "Failed to
read user files". Neither response depends on the error. -/
theorem storage_failure_generic {σ : Type} (sys : Sys σ) (s : UserFileServer) :
    (∀ (c : Context) (w : σ) (file : FileHeader) (e : GoError),
        c.PostForm "id" ≠ "" → c.FormFile "file" = .ok file →
        (sys.SaveUploadedFile w file (Join s.userFilesPath (c.PostForm "id" ++ ".json"))).1
          = some e →
        (addUserFile sys s c w).1 = ⟨500, [("error", .str "Failed to save file")]⟩) ∧
    (∀ (c : Context) (w : σ) (e : GoError),
        sys.ReadDir w s.userFilesPath = .error e →
        (listUsers sys s c w).1 = ⟨500, [("error", .str "Failed to read user files")]⟩) := by
  constructor
  · intro c w file e hid hfile hsave
    rcases hs : sys.SaveUploadedFile w file
      (Join s.userFilesPath (c.PostForm "id" ++ ".json")) with ⟨r, w'⟩
    rw [hs] at hsave
    simp only at hsave
    subst hsave
    simp [addUserFile, hid, hfile, hs, StatusInternalServerError]
  · intro c w e hread
    simp [listUsers, hread, StatusInternalServerError]

theorem storage_failure_generic_witness :
    ((addUserFile refSys ⟨":80", "/user_files"⟩
        (Context.mk [] [("id", "testuser")] [("file", ⟨"test.json", [1, 2]⟩)])
        ⟨[], .dir [("user_files", .file [])]⟩).1
      = ⟨500, [("error", .str "Failed to save file")]⟩) ∧
    ((listUsers refSys ⟨":80", "/user_files"⟩ (Context.mk [] [] [])
        ⟨[], .dir [("user_files", .file [])]⟩).1
      = ⟨500, [("error", .str "Failed to read user files")]⟩) :=
  ⟨(storage_failure_generic refSys ⟨":80", "/user_files"⟩).1
      (Context.mk [] [("id", "testuser")] [("file", ⟨"test.json", [1, 2]⟩)])
      ⟨[], .dir [("user_files", .file [])]⟩
      ⟨"test.json", [1, 2]⟩ ENOTDIR (by decide) (by decide) (by decide),
   (storage_failure_generic refSys ⟨":80", "/user_files"⟩).2
      (Context.mk [] [] []) ⟨[], .dir [("user_files", .file [])]⟩ ENOTDIR (by decide)⟩

end UserFiles
